import Mathlib

/-!
Shallow embedding of the core of `src/Mian.py` (multi-channel serial data
plotter): the frame decoder (`_parse_value`, the tag extraction in
`_serial_worker`), the per-channel bounded queues (`ch_queues`, capacity
5000, `put_nowait` with `Full` swallowed), the acquisition worker loop
(`_serial_worker`), and the consumer tick (`update_loop`: per-channel
non-blocking drain plus the rolling-window shift of `ch_vals`/`ch_ptrs`).

Python bytes are modelled as `Fin 256`; Python floats that the program
produces are always exact small integers (`float(raw[1])`, a byte ordinal),
so sample values are modelled as `ℚ`, on which all arithmetic used here is
exact.
-/

namespace SerialPlot

/-- A single byte of a frame, as in Python `bytes` indexing: an integer in
`[0, 255]`. -/
abbrev Byte := Fin 256

/-- Mian.py line 192: `WINDOW_W = 500`, the rolling-window width. -/
def WINDOW_W : Nat := 500

/-- Mian.py line 193: `NUM_CH = 6`. -/
def NUM_CH : Nat := 6

/-- Mian.py line 194: `NODE_IDS = ["31", "32", "33", "34", "35", "36"]`. -/
def NODE_IDS : List String := ["31", "32", "33", "34", "35", "36"]

/-- Mian.py line 196: each `ch_queues` entry is `Queue(maxsize=5000)`. -/
def QUEUE_CAP : Nat := 5000

/-- Lowercase hexadecimal digit for `n < 16`, as produced by Python
`bytes.hex()`. -/
def hexDigit (n : Nat) : Char :=
  if n < 10 then Char.ofNat (48 + n) else Char.ofNat (87 + n)

/-- Two-hex-digit lowercase string of one byte: Python `raw[0:1].hex()`
(Mian.py line 402) applied to the single byte `b`. -/
def byteHex (b : Byte) : String :=
  String.mk [hexDigit (b.val / 16), hexDigit (b.val % 16)]

/-- Mian.py lines 393-394, `_parse_value`:
`return float(raw[1]) if len(raw) > 1 else 0.0`.
`raw[1]` on Python `bytes` is the ordinal of the second byte. -/
def parse_value (raw : List Byte) : ℚ :=
  if 1 < raw.length then ((raw.getD 1 0).val : ℚ) else 0

/-- One bounded FIFO channel queue, front = oldest. `try_enqueue` models
Mian.py lines 406-409: `ch_queues[idx].put_nowait(value)` with
`except queue.Full: pass` — `put_nowait` appends when the queue holds fewer
than `maxsize` items and raises `Full` (here: leaves the queue unchanged)
otherwise. -/
def try_enqueue (q : List ℚ) (v : ℚ) : List ℚ :=
  if q.length < QUEUE_CAP then q ++ [v] else q

/-- Feeding a whole list of values through `try_enqueue`, oldest first. -/
def enqueueAll (q : List ℚ) (vs : List ℚ) : List ℚ :=
  vs.foldl try_enqueue q

/-- The inner drain loop of `update_loop` (Mian.py lines 563-568):
`last = None; while True: last = q.get_nowait()` until `Empty` is raised.
Returns the final value of `last` together with the (always empty)
remaining queue. -/
def drainLoop (last : Option ℚ) : List ℚ → Option ℚ × List ℚ
  | [] => (last, [])
  | v :: rest => drainLoop (some v) rest

/-- The per-channel non-blocking drain of `update_loop`: consume every
pending item, keep only the last one obtained. -/
def drain_latest (q : List ℚ) : Option ℚ × List ℚ :=
  drainLoop none q

/-- One channel's rolling-window state: `ch_vals[idx]` (a fixed-length
array) and `ch_ptrs[idx]` (Mian.py lines 197-198). -/
structure Window where
  vals : List ℚ
  ptr : Int
deriving DecidableEq, Repr

/-- Mian.py lines 570-572, the window update for one new sample:
`ch_vals[idx][:-1] = ch_vals[idx][1:]` (shift one position toward index 0,
dropping the oldest), `ch_vals[idx][-1] = last` (new value at the last
index), `ch_ptrs[idx] += 1`. -/
def Window.push (w : Window) (v : ℚ) : Window :=
  { vals := w.vals.drop 1 ++ [v], ptr := w.ptr + 1 }

/-- Repeated pushes, oldest sample first. -/
def pushAll (w : Window) (vs : List ℚ) : Window :=
  vs.foldl Window.push w

/-- The initial state of a channel's window of width `n`:
`np.zeros(WINDOW_W)` and pointer `-WINDOW_W` (Mian.py lines 197-198, with
`n = WINDOW_W`). -/
def initWindow (n : Nat) : Window :=
  { vals := List.replicate n 0, ptr := -(n : Int) }

/-- The frame-handling body of `_serial_worker` (Mian.py lines 400-409) for
one raw read, acting on the list of the six channel queues: skip an empty
read, extract `node_id = raw[0:1].hex()`, and when it is in `NODE_IDS`,
enqueue `_parse_value(raw)` on queue `NODE_IDS.index(node_id)` (overflow
swallowed by `try_enqueue`). Any other tag leaves every queue unchanged. -/
def processFrame (qs : List (List ℚ)) (raw : List Byte) : List (List ℚ) :=
  match raw with
  | [] => qs
  | b :: _ =>
      let node_id := byteHex b
      if node_id ∈ NODE_IDS then
        let idx := NODE_IDS.indexOf node_id
        qs.set idx (try_enqueue (qs.getD idx []) (parse_value raw))
      else qs

/-- The decode step of the worker, packaged as the spec's
`decode(frame) -> Option (channel_tag, value)` contract: `none` on an empty
read or an unrecognised first-byte tag, otherwise the two-hex-digit tag of
the first byte paired with `_parse_value` of the frame (Mian.py lines
399-405). -/
def decodeFrame (raw : List Byte) : Option (String × ℚ) :=
  match raw with
  | [] => none
  | b :: _ =>
      let node_id := byteHex b
      if node_id ∈ NODE_IDS then some (node_id, parse_value raw) else none

/-- One `ser.read_until` outcome seen by the worker: a raw byte record
(possibly empty), or a transport exception raised during the read. -/
inductive ReadResult
  | ok (raw : List Byte)
  | error
deriving DecidableEq, Repr

/-- How the acquisition loop of `_serial_worker` ended. -/
inductive LoopExit
  | stopped
  | faulted
deriving DecidableEq, Repr

/-- Mian.py lines 396-411, `_serial_worker`: the `while running` loop over
the successive read outcomes. Each successful read is handled by
`processFrame`; the first transport exception hits
`except Exception: break`, ending the loop at once (`faulted`) with the
queues as they were; exhausting `reads` models the `running` flag being
cleared (`stopped`). -/
def serial_worker : List (List ℚ) → List ReadResult → List (List ℚ) × LoopExit
  | qs, [] => (qs, .stopped)
  | qs, .ok raw :: rest => serial_worker (processFrame qs raw) rest
  | qs, .error :: _ => (qs, .faulted)

/-- The per-channel body of `update_loop` (Mian.py lines 562-575): drain the
channel's queue keeping only the newest pending value; if one was pending,
push it into the window; record the drained value (`current_vals[idx]`) as
the update signal. -/
def tickChannel (q : List ℚ) (w : Window) : List ℚ × Window × Option ℚ :=
  let r := drain_latest q
  match r.1 with
  | none => (r.2, w, none)
  | some v => (r.2, w.push v, some v)

/-- One full consumer tick over all channels (`update_loop`, Mian.py lines
560-575): each queue is drained and each window updated independently;
the third component collects `current_vals`. -/
def tickAll (qs : List (List ℚ)) (ws : List Window) :
    List (List ℚ) × List Window × List (Option ℚ) :=
  let results := (qs.zip ws).map (fun p => tickChannel p.1 p.2)
  (results.map (fun r => r.1), results.map (fun r => r.2.1),
    results.map (fun r => r.2.2))

/-! Helper lemmas shared by the claim theorems. -/

lemma drainLoop_some (q : List ℚ) : ∀ a : ℚ, drainLoop (some a) q = ((a :: q).getLast?, []) := by
  induction q with
  | nil => intro a; simp [drainLoop]
  | cons b q' ih => intro a; simp [drainLoop, ih b, List.getLast?_cons_cons]

lemma drain_latest_eq (q : List ℚ) : drain_latest q = (q.getLast?, []) := by
  cases q with
  | nil => simp [drain_latest, drainLoop]
  | cons v q' => simpa [drain_latest, drainLoop] using drainLoop_some q' v

lemma enqueueAll_eq_take : ∀ (vs q : List ℚ), q.length ≤ QUEUE_CAP →
    enqueueAll q vs = q ++ vs.take (QUEUE_CAP - q.length) := by
  intro vs
  induction vs with
  | nil => intro q h; simp [enqueueAll]
  | cons v vs' ih =>
    intro q h
    by_cases h' : q.length < QUEUE_CAP
    · have h1 : try_enqueue q v = q ++ [v] := by simp [try_enqueue, h']
      have h2 : (q ++ [v]).length ≤ QUEUE_CAP := by simp; omega
      have h3 := ih (q ++ [v]) h2
      have h4 : enqueueAll q (v :: vs') = enqueueAll (try_enqueue q v) vs' := rfl
      rw [h4, h1, h3]
      rw [show QUEUE_CAP - q.length = (QUEUE_CAP - (q ++ [v]).length) + 1 from by simp; omega,
        List.take_succ_cons]
      simp
    · have h1 : try_enqueue q v = q := by simp [try_enqueue, h']
      have h4 : enqueueAll q (v :: vs') = enqueueAll (try_enqueue q v) vs' := rfl
      rw [h4, h1, ih q h]
      have hz : QUEUE_CAP - q.length = 0 := by omega
      simp [hz]

lemma getLast_map_range (f : ℕ → ℚ) (n : ℕ) :
    ((List.range (n + 1)).map f).getLast? = some (f n) := by
  rw [List.range_succ, List.map_append]
  simp

/-- C1, counterexample: enqueue the 6000 values `1, 2, ..., 6000` into one
empty channel queue of capacity 5000 with no intervening drain. The most
recently produced value is 6000, but the subsequent drain returns 5000 —
`put_nowait` on a full `queue.Queue` drops the incoming item, so the claim
that the drain observes the 6000th value is false. -/
theorem C1_counterexample :
    ((List.range 6000).map (fun i => ((i + 1 : ℕ) : ℚ))).getLast? = some 6000 ∧
    (drain_latest (enqueueAll []
      ((List.range 6000).map (fun i => ((i + 1 : ℕ) : ℚ))))).1 = some 5000 ∧
    (5000 : ℚ) ≠ 6000 := by
  refine ⟨?_, ?_, by norm_num⟩
  · rw [show (6000 : ℕ) = 5999 + 1 from by norm_num, getLast_map_range]
    norm_num
  · have he := enqueueAll_eq_take ((List.range 6000).map (fun i => ((i + 1 : ℕ) : ℚ))) []
      (by norm_num)
    simp only [List.nil_append, List.length_nil, Nat.sub_zero] at he
    have hv : (((List.range 6000).map (fun i => ((i + 1 : ℕ) : ℚ))).take QUEUE_CAP)
        = (List.range 5000).map (fun i => ((i + 1 : ℕ) : ℚ)) := by
      rw [show QUEUE_CAP = 5000 from rfl, ← List.map_take, List.take_range,
        min_eq_left (by norm_num)]
    have hl : ((List.range 5000).map (fun i => ((i + 1 : ℕ) : ℚ))).getLast? = some (5000 : ℚ) := by
      rw [show (5000 : ℕ) = 4999 + 1 from by norm_num, getLast_map_range]
      norm_num
    rw [he, hv, drain_latest_eq, hl]

/-- C1, amended: if 6000 values are enqueued into one channel's queue of
capacity 5000 without any intervening drain, the enqueue never errors or
blocks (each `put_nowait` either appends or silently drops), the queue
retains the first 5000 values, and the consumer's subsequent drain returns
the 5000th value produced — the newest retained one. Once at capacity the
incoming item, not the oldest unconsumed one, is discarded. -/
theorem C1_amended (vs : List ℚ) (h : vs.length = 6000) :
    enqueueAll [] vs = vs.take QUEUE_CAP ∧
    (drain_latest (enqueueAll [] vs)).1 = vs[4999]? := by
  have he := enqueueAll_eq_take vs [] (by norm_num)
  simp only [List.nil_append, List.length_nil, Nat.sub_zero] at he
  refine ⟨he, ?_⟩
  have hd : (vs.take QUEUE_CAP).getLast? = vs[4999]? := by
    rw [List.getLast?_eq_getElem?, List.length_take]
    rw [show QUEUE_CAP = 5000 from rfl, h, min_eq_left (by norm_num)]
    rw [List.getElem?_take, if_pos (by norm_num)]
  rw [he, drain_latest_eq, hd]

/-- C1, witness: the amended theorem applied to a concrete list of 6000
values. -/
theorem C1_amended_witness :
    (List.replicate 6000 (0 : ℚ)).length = 6000 ∧
    (enqueueAll [] (List.replicate 6000 (0 : ℚ)) = (List.replicate 6000 (0 : ℚ)).take QUEUE_CAP ∧
      (drain_latest (enqueueAll [] (List.replicate 6000 (0 : ℚ)))).1 =
        (List.replicate 6000 (0 : ℚ))[4999]?) :=
  ⟨List.length_replicate _ _, C1_amended _ (List.length_replicate _ _)⟩

lemma push_vals (w : Window) (v : ℚ) : (w.push v).vals = w.vals.drop 1 ++ [v] := rfl

lemma push_ptr (w : Window) (v : ℚ) : (w.push v).ptr = w.ptr + 1 := rfl

lemma pushAll_cons (w : Window) (v : ℚ) (vs : List ℚ) :
    pushAll w (v :: vs) = pushAll (w.push v) vs := rfl

lemma pushAll_ptr : ∀ (vs : List ℚ) (w : Window), (pushAll w vs).ptr = w.ptr + vs.length := by
  intro vs
  induction vs with
  | nil => intro w; simp [pushAll]
  | cons v vs' ih =>
    intro w
    rw [pushAll_cons, ih, push_ptr, List.length_cons]
    push_cast
    ring

lemma pushAll_vals : ∀ (vs : List ℚ) (w : Window), vs.length ≤ w.vals.length →
    (pushAll w vs).vals = w.vals.drop vs.length ++ vs := by
  intro vs
  induction vs with
  | nil => intro w _; simp [pushAll]
  | cons v vs' ih =>
    intro w h
    rw [List.length_cons] at h
    have h2 : vs'.length ≤ (w.push v).vals.length := by
      rw [push_vals, List.length_append, List.length_drop]
      simp
      omega
    rw [pushAll_cons, ih (w.push v) h2, push_vals]
    have h3 : vs'.length ≤ (w.vals.drop 1).length := by
      rw [List.length_drop]
      omega
    rw [List.drop_append_of_le_length h3, List.drop_drop]
    simp [List.append_assoc, Nat.add_comm]

/-- C2, counterexample: the truncated frame made of the single data byte
`0x31` followed by the 3-byte terminator `FF FF FF` — which is what
`read_until` hands the worker, terminator included — decodes successfully,
but its value is `255.0` (the ordinal of the first terminator byte), not
the claimed `0.0`. -/
theorem C2_counterexample :
    decodeFrame [(0x31 : Byte), 255, 255, 255] = some ("31", 255) ∧ (255 : ℚ) ≠ 0 :=
  ⟨by decide, by norm_num⟩

/-- C2, amended: decoding never fails, and a frame shorter than the minimum
header length — total length at most 1, i.e. too short to contain a value
byte — decodes to the default value `0.0`; but a frame of one data byte
followed by the 3-byte terminator has length 4, so it decodes successfully
to value `255.0`, the ordinal of the first terminator byte. -/
theorem C2_amended :
    (∀ raw : List Byte, raw.length ≤ 1 → parse_value raw = 0) ∧
    (∀ b : Byte, byteHex b ∈ NODE_IDS →
      decodeFrame [b, 255, 255, 255] = some (byteHex b, 255)) := by
  constructor
  · intro raw h
    rw [parse_value, if_neg (by omega)]
  · intro b hb
    simp only [decodeFrame, if_pos hb]
    rw [parse_value, if_pos (by simp)]
    simp only [List.getD_cons_succ, List.getD_cons_zero]
    have h255 : (((255 : Byte) : Fin 256).val : ℚ) = 255 := by decide
    rw [h255]

/-- C2, witness: the amended theorem applied to the empty frame and to the
tag byte `0x31`. -/
theorem C2_amended_witness :
    (([] : List Byte).length ≤ 1 ∧ parse_value [] = 0) ∧
    (byteHex (0x31 : Byte) ∈ NODE_IDS ∧
      decodeFrame [(0x31 : Byte), 255, 255, 255] = some (byteHex (0x31 : Byte), 255)) :=
  ⟨⟨by decide, C2_amended.1 [] (by decide)⟩, ⟨by decide, C2_amended.2 (0x31 : Byte) (by decide)⟩⟩

/-- C3: for every frame with a known channel tag and sufficient length,
decode returns `(tag, value)` matching the byte-level encoding exactly —
the tag is the two-hex-digit representation of the frame's first byte
(e.g. `0x31` gives "31") and the value is the ordinal of the frame's second
element; for a known-tag frame shorter than the value offset the returned
value is `0.0`. -/
theorem C3_decode_exact :
    (∀ (b c : Byte) (rest : List Byte), byteHex b ∈ NODE_IDS →
      decodeFrame (b :: c :: rest) = some (byteHex b, (c.val : ℚ))) ∧
    (∀ b : Byte, byteHex b ∈ NODE_IDS → decodeFrame [b] = some (byteHex b, 0)) ∧
    byteHex (0x31 : Byte) = "31" := by
  refine ⟨?_, ?_, by decide⟩
  · intro b c rest hb
    simp only [decodeFrame, if_pos hb]
    rw [parse_value, if_pos (by simp)]
    simp
  · intro b hb
    simp only [decodeFrame, if_pos hb]
    rw [parse_value, if_neg (by simp)]

/-- C3, witness: the decode theorem at the concrete frames
`31 07 ff ff ff` and `36`. -/
theorem C3_decode_exact_witness :
    (byteHex (0x31 : Byte) ∈ NODE_IDS ∧
      decodeFrame [(0x31 : Byte), 7, 255, 255, 255] =
        some (byteHex (0x31 : Byte), ((7 : Byte).val : ℚ))) ∧
    (byteHex (0x36 : Byte) ∈ NODE_IDS ∧
      decodeFrame [(0x36 : Byte)] = some (byteHex (0x36 : Byte), 0)) :=
  ⟨⟨by decide, C3_decode_exact.1 _ _ _ (by decide)⟩,
   ⟨by decide, C3_decode_exact.2.1 _ (by decide)⟩⟩

/-- C4: a frame whose first-byte channel tag is outside the fixed
six-element node-ID set `{"31",...,"36"}` is never enqueued anywhere: the
worker's frame handler leaves the whole list of channel queues unchanged,
and, being a total function, surfaces no error. -/
theorem C4_unknown_tag_drops (qs : List (List ℚ)) (b : Byte) (rest : List Byte)
    (h : byteHex b ∉ NODE_IDS) : processFrame qs (b :: rest) = qs := by
  simp only [processFrame, if_neg h]

/-- C4, witness: a frame tagged `0x40` (hex "40", not a node ID) leaves the
six freshly constructed queues unchanged. -/
theorem C4_unknown_tag_drops_witness :
    byteHex (0x40 : Byte) ∉ NODE_IDS ∧
    processFrame (List.replicate NUM_CH []) [(0x40 : Byte), 255, 255, 255]
      = List.replicate NUM_CH [] :=
  ⟨by decide, C4_unknown_tag_drops _ _ _ (by decide)⟩

/-- C5: a rolling-window push on a window of fixed length keeps the length,
shifts every surviving element one position toward index 0 (dropping the
oldest), places the new value at the last index, and advances the scroll
pointer by exactly one; consequently pushing N values into the empty
(all-zero) window of capacity N yields a window holding exactly those N
values in arrival order, with the pointer advanced by exactly N from its
initial value of `-N`, i.e. ending at 0. -/
theorem C5_rolling_push :
    (∀ (w : Window) (v : ℚ), (w.push v).ptr = w.ptr + 1) ∧
    (∀ (w : Window) (v : ℚ), w.vals ≠ [] → (w.push v).vals.length = w.vals.length) ∧
    (∀ (w : Window) (v : ℚ) (i : Nat), i + 1 < w.vals.length →
      (w.push v).vals[i]? = w.vals[i + 1]?) ∧
    (∀ (w : Window) (v : ℚ), (w.push v).vals.getLast? = some v) ∧
    (∀ vs : List ℚ, (pushAll (initWindow vs.length) vs).vals = vs ∧
      (pushAll (initWindow vs.length) vs).ptr = (initWindow vs.length).ptr + vs.length ∧
      (pushAll (initWindow vs.length) vs).ptr = 0) := by
  refine ⟨fun w v => push_ptr w v, ?_, ?_, ?_, ?_⟩
  · intro w v hw
    rw [push_vals, List.length_append, List.length_drop]
    have : w.vals.length ≠ 0 := by
      intro h0
      exact hw (List.length_eq_zero.mp h0)
    simp
    omega
  · intro w v i h
    have h1 : i < (w.vals.drop 1).length := by
      rw [List.length_drop]
      omega
    rw [push_vals, List.getElem?_append, if_pos h1, List.getElem?_drop, Nat.add_comm]
  · intro w v
    rw [push_vals, List.getLast?_concat]
  · intro vs
    have hlen : vs.length ≤ (initWindow vs.length).vals.length := by
      rw [initWindow, List.length_replicate]
    refine ⟨?_, pushAll_ptr vs _, ?_⟩
    · rw [pushAll_vals vs _ hlen]
      rw [initWindow]
      simp [List.drop_replicate]
    · rw [pushAll_ptr vs _, initWindow]
      simp

/-- C5, witness: the push theorem's conditional parts applied to the
concrete window `[1, 2, 3]` with pointer 0 and the pushed value 9. -/
theorem C5_rolling_push_witness :
    ((Window.mk [1, 2, 3] 0).vals ≠ [] ∧
      ((Window.mk [1, 2, 3] 0).push 9).vals.length = (Window.mk [1, 2, 3] 0).vals.length) ∧
    ((0 : Nat) + 1 < (Window.mk [1, 2, 3] 0).vals.length ∧
      ((Window.mk [1, 2, 3] 0).push 9).vals[0]? = (Window.mk [1, 2, 3] 0).vals[0 + 1]?) :=
  ⟨⟨by decide, C5_rolling_push.2.1 _ 9 (by decide)⟩,
   ⟨by decide, C5_rolling_push.2.2.1 _ 9 0 (by decide)⟩⟩

/-- C6: the producer-side enqueue never blocks — when the queue is at (or
beyond) capacity the incoming sample is dropped silently and the queue's
contents are unchanged by the failed enqueue; below capacity the sample is
appended at the back. -/
theorem C6_enqueue_nonblocking :
    (∀ (q : List ℚ) (v : ℚ), QUEUE_CAP ≤ q.length → try_enqueue q v = q) ∧
    (∀ (q : List ℚ) (v : ℚ), q.length < QUEUE_CAP → try_enqueue q v = q ++ [v]) := by
  constructor
  · intro q v h
    rw [try_enqueue, if_neg (by omega)]
  · intro q v h
    rw [try_enqueue, if_pos h]

/-- C6, witness: the enqueue theorem applied to a concrete full queue of
5000 zeros and to the empty queue. -/
theorem C6_enqueue_nonblocking_witness :
    (QUEUE_CAP ≤ (List.replicate 5000 (0 : ℚ)).length ∧
      try_enqueue (List.replicate 5000 (0 : ℚ)) 1 = List.replicate 5000 (0 : ℚ)) ∧
    (([] : List ℚ).length < QUEUE_CAP ∧ try_enqueue [] 1 = [] ++ [1]) :=
  ⟨⟨by rw [List.length_replicate]; exact le_rfl,
    C6_enqueue_nonblocking.1 _ 1 (by rw [List.length_replicate]; exact le_rfl)⟩,
   ⟨by norm_num [QUEUE_CAP], C6_enqueue_nonblocking.2 [] 1 (by norm_num [QUEUE_CAP])⟩⟩

/-- C7: the per-tick drain is non-blocking (a total function), consumes all
pending items and returns only the most recent one, leaving the queue
empty; the per-channel tick on an empty queue leaves the window — contents
and pointer — unchanged and produces no update signal, and on a non-empty
queue delivers exactly the newest pending value to the window. -/
theorem C7_drain_latest_spec :
    (∀ q : List ℚ, drain_latest q = (q.getLast?, [])) ∧
    (∀ w : Window, tickChannel [] w = ([], w, none)) ∧
    (∀ (q : List ℚ) (w : Window) (v : ℚ), q.getLast? = some v →
      tickChannel q w = ([], w.push v, some v)) := by
  refine ⟨drain_latest_eq, fun w => rfl, ?_⟩
  intro q w v h
  rw [tickChannel]
  rw [drain_latest_eq, h]

/-- C7, witness: the tick theorem's conditional part applied to the
concrete queue `[1, 2, 3]`, whose newest item is 3. -/
theorem C7_drain_latest_spec_witness :
    [(1 : ℚ), 2, 3].getLast? = some 3 ∧
    tickChannel [(1 : ℚ), 2, 3] (Window.mk [0] 0) = ([], (Window.mk [0] 0).push 3, some 3) :=
  ⟨by decide, C7_drain_latest_spec.2.2 _ _ 3 (by decide)⟩

/-- C8: feeding one frame for tag "31" and one for tag "32" (with any two
values) into fresh queues and then running one consumer tick updates only
channels 1 and 2 — their windows receive the respective values — while the
window contents and pointers of channels 3 through 6 remain exactly at
their prior values and those channels signal no update. -/
theorem C8_selective_update (w1 w2 w3 w4 w5 w6 : Window) (v1 v2 : Byte) :
    tickAll (processFrame (processFrame (List.replicate NUM_CH [])
        [(0x31 : Byte), v1, 255, 255, 255]) [(0x32 : Byte), v2, 255, 255, 255])
      [w1, w2, w3, w4, w5, w6]
    = ([[], [], [], [], [], []],
       [w1.push (v1.val : ℚ), w2.push (v2.val : ℚ), w3, w4, w5, w6],
       [some (v1.val : ℚ), some (v2.val : ℚ), none, none, none, none]) := rfl

/-- C9: on a transport exception during a read, the acquisition loop leaves
the running state (`faulted`) and stops without the exception propagating
past the loop's boundary (the loop is a total function), having processed
exactly the frames read before the fault; no value from any later read
outcome is ever enqueued — the final queues do not depend on `suffix` — so
no further enqueues happen until the loop is explicitly restarted. -/
theorem C9_fault_stops_loop (qs : List (List ℚ)) (frames : List (List Byte))
    (suffix : List ReadResult) :
    serial_worker qs (frames.map ReadResult.ok ++ ReadResult.error :: suffix)
      = (frames.foldl processFrame qs, LoopExit.faulted) := by
  induction frames generalizing qs with
  | nil => rfl
  | cons f frames' ih =>
    rw [List.map_cons, List.cons_append, List.foldl_cons]
    exact ih (processFrame qs f)

/-- C10: every decoded value is the numeric ordinal of a single byte — an
integer-valued sample in the range `[0, 255]`: frames of length at most 1
(the empty frame and one-byte frames) decode to `0.0`, and any longer frame
decodes to exactly the ordinal of its second byte; no multi-byte or
fractional value is ever produced. -/
theorem C10_value_is_byte_ordinal :
    (∀ raw : List Byte, ∃ n : Nat, n ≤ 255 ∧ parse_value raw = (n : ℚ)) ∧
    parse_value [] = 0 ∧
    (∀ b : Byte, parse_value [b] = 0) ∧
    (∀ (b c : Byte) (rest : List Byte), parse_value (b :: c :: rest) = (c.val : ℚ)) := by
  have hnil : parse_value [] = 0 := by rw [parse_value, if_neg (by simp)]
  have hone : ∀ b : Byte, parse_value [b] = 0 := by
    intro b
    rw [parse_value, if_neg (by simp)]
  have htwo : ∀ (b c : Byte) (rest : List Byte), parse_value (b :: c :: rest) = (c.val : ℚ) := by
    intro b c rest
    rw [parse_value, if_pos (by simp)]
    simp
  refine ⟨?_, hnil, hone, htwo⟩
  intro raw
  match raw with
  | [] => exact ⟨0, by norm_num, hnil⟩
  | [b] => exact ⟨0, by norm_num, hone b⟩
  | b :: c :: rest =>
    refine ⟨c.val, by omega, htwo b c rest⟩

end SerialPlot
